import Mathlib

/-!
Shallow embedding of the PuppyPeer core (crate `core` of the repository) in
Lean 4, together with theorems settling the specification claims about it.

Modelling conventions:
* `PeerId` is modelled as `Nat` (equality on raw bytes is equality on `Nat`),
  `Multiaddr` as `String`, filesystem paths as lists of components
  (`List String`), so that Rust's component-wise `Path::starts_with`
  becomes `List.isPrefixOf`.
* Machine integers (`u8` flag bitsets, `u64` offsets and lengths) are
  modelled as `Nat`, with the `u64` overflow of `checked_add` made explicit
  against `U64_LIMIT = 2 ^ 64`.
* File contents are lists of byte values (`List Nat`); the ambient
  filesystem that the handlers consult (canonicalisation, directory
  listings, file opening) is an explicit oracle record, since the real code
  performs I/O there.
-/

namespace PuppyPeer

/-- Access flag `READ = 0x01` (`src/core/src/state.rs`). -/
def FLAG_READ : Nat := 0x01

/-- Access flag `WRITE = 0x02` (`src/core/src/state.rs`). -/
def FLAG_WRITE : Nat := 0x02

/-- Access flag `EXECUTE = 0x04` (`src/core/src/state.rs`). -/
def FLAG_EXECUTE : Nat := 0x04

/-- Access flag `SEARCH = 0x08` (`src/core/src/state.rs`). -/
def FLAG_SEARCH : Nat := 0x08

/-- A shared-folder rule: a path (list of components) and a flag bitset.
Embeds `struct FolderRule` of `src/core/src/state.rs`. -/
structure FolderRule where
  path : List String
  flags : Nat
deriving DecidableEq

/-- `FolderRule::can_read` from `src/core/src/state.rs`. -/
def FolderRule.can_read (r : FolderRule) : Bool :=
  (r.flags &&& FLAG_READ) != 0

/-- `FolderRule::can_write` from `src/core/src/state.rs`. -/
def FolderRule.can_write (r : FolderRule) : Bool :=
  (r.flags &&& FLAG_WRITE) != 0

/-- `FolderRule::can_execute` from `src/core/src/state.rs`. -/
def FolderRule.can_execute (r : FolderRule) : Bool :=
  (r.flags &&& FLAG_EXECUTE) != 0

/-- `FolderRule::can_search` from `src/core/src/state.rs`. -/
def FolderRule.can_search (r : FolderRule) : Bool :=
  (r.flags &&& FLAG_SEARCH) != 0

/-- `FolderRule::allows` from `src/core/src/state.rs`: every requested flag
among READ, WRITE, EXECUTE, SEARCH must be held by the rule. -/
def FolderRule.allows (r : FolderRule) (access : Nat) : Bool :=
  if (access &&& FLAG_READ) != 0 && !r.can_read then false
  else if (access &&& FLAG_WRITE) != 0 && !r.can_write then false
  else if (access &&& FLAG_EXECUTE) != 0 && !r.can_execute then false
  else if (access &&& FLAG_SEARCH) != 0 && !r.can_search then false
  else true

/-- `enum Rule` from `src/core/src/state.rs`: `Owner | Folder(FolderRule)`. -/
inductive Rule where
  | Owner : Rule
  | Folder : FolderRule → Rule
deriving DecidableEq

/-- `struct RelationshipRule` from `src/core/src/state.rs`: a rule with an
optional expiry timestamp. -/
structure RelationshipRule where
  rule : Rule
  expires_at : Option Int
deriving DecidableEq

/-- `struct Relationship` from `src/core/src/state.rs`. -/
structure Relationship where
  src : Nat
  target : Nat
  rules : List RelationshipRule
deriving DecidableEq

/-- `enum AuthMethod` from `src/core/src/state.rs`. -/
inductive AuthMethod where
  | Token : String → AuthMethod
  | Credentials : String → String → AuthMethod
deriving DecidableEq

/-- `struct Auth` from `src/core/src/state.rs`. -/
structure Auth where
  method : AuthMethod
  expires_at : Option Int
  rules : List Rule
deriving DecidableEq

/-- `struct Connection` from `src/core/src/state.rs`. -/
structure Connection where
  peer_id : Nat
  connection_id : Nat
deriving DecidableEq

/-- `struct DiscoveredPeer` from `src/core/src/state.rs`. -/
structure DiscoveredPeer where
  peer_id : Nat
  multiaddr : String
deriving DecidableEq

/-- `struct Peer` from `src/core/src/state.rs`. -/
structure Peer where
  id : Nat
  name : Option String
deriving DecidableEq

/-- `struct User` from `src/core/src/state.rs`. -/
structure User where
  name : String
  passw : String
deriving DecidableEq

/-- `struct State` from `src/core/src/state.rs`. -/
structure State where
  me : Nat
  relationships : List Relationship
  auths : List Auth
  connections : List Connection
  discovered_peers : List DiscoveredPeer
  peers : List Peer
  users : List User
  shared_folders : List FolderRule
deriving DecidableEq

/-- `State::add_shared_folder` from `src/core/src/state.rs`. -/
def State.add_shared_folder (st : State) (rule : FolderRule) : State :=
  { st with shared_folders := st.shared_folders ++ [rule] }

/-- `State::has_fs_access` from `src/core/src/state.rs`.  The source's
early-return loops are rendered as `List.any`; the result is identical
because the function only decides existence of a granting rule. -/
def State.has_fs_access (st : State) (src : Nat) (path : List String)
    (access : Nat) : Bool :=
  if src == st.me then true
  else if st.shared_folders.any
      (fun r => r.path.isPrefixOf path && r.allows access) then true
  else if st.relationships.any (fun rel =>
      (rel.src == src || rel.target == src) &&
      rel.rules.any (fun rr =>
        match rr.rule with
        | Rule.Owner => true
        | Rule.Folder fr => fr.path.isPrefixOf path && fr.allows access)) then
    true
  else false

/-- `State::peer_discovered` from `src/core/src/state.rs`: the entry is
appended only when no existing entry has the same `peer_id` (the multiaddr
is not consulted). -/
def State.peer_discovered (st : State) (peer_id : Nat) (multiaddr : String) :
    State :=
  if st.discovered_peers.any (fun p => p.peer_id == peer_id) then st
  else { st with discovered_peers :=
          st.discovered_peers ++ [⟨peer_id, multiaddr⟩] }

/-- `State::peer_expired` from `src/core/src/state.rs`: retain all entries
except those matching both `peer_id` and `multiaddr`. -/
def State.peer_expired (st : State) (peer_id : Nat) (multiaddr : String) :
    State :=
  { st with discovered_peers :=
      (st.discovered_peers.filter
        (fun p => !(p.peer_id == peer_id && p.multiaddr == multiaddr))) }

/-- `State::create_user` from `src/core/src/state.rs`. -/
def State.create_user (st : State) (username password : String) :
    Except String State :=
  if st.users.any (fun u => u.name == username) then
    Except.error "User already exists"
  else
    Except.ok { st with users := st.users ++ [⟨username, password⟩] }

/-! File transfer types and operations (`src/core/src/types.rs`,
`src/core/src/app.rs`, `src/core/src/p2p.rs`). -/

/-- `struct FileChunk` from `src/core/src/types.rs`. -/
structure FileChunk where
  offset : Nat
  data : List Nat
  eof : Bool
deriving DecidableEq

/-- `struct FileWriteAck` (`bytes_written`). -/
structure FileWriteAck where
  bytes_written : Nat
deriving DecidableEq

/-- `MAX_FILE_CHUNK = 4 * 1024 * 1024` from `src/core/src/p2p.rs`. -/
def MAX_FILE_CHUNK : Nat := 4 * 1024 * 1024

/-- One past the largest `u64` value. -/
def U64_LIMIT : Nat := 2 ^ 64

/-- `u64::checked_add`, for operands already known to fit in `u64`. -/
def checked_add (a b : Nat) : Option Nat :=
  if a + b < U64_LIMIT then some (a + b) else none

/-- `read_file` from `src/core/src/app.rs`.  The opened file is given as
`none` when `File::open` fails, otherwise as `(is_dir, content)`; the single
`reader.read` call is modelled as filling the whole requested buffer (the
bytes from `offset` are available, as `to_read ≤ remaining`). -/
def read_file (file : Option (Bool × List Nat)) (offset : Nat)
    (length : Option Nat) : Except String FileChunk :=
  match file with
  | none => Except.error "open failed"
  | some (is_dir, content) =>
    if is_dir then Except.error "path is a directory"
    else
      let file_len := content.length
      if file_len ≤ offset then Except.ok ⟨offset, [], true⟩
      else
        let remaining := file_len - offset
        let to_read := match length with
          | some l => min l remaining
          | none => remaining
        let data := (content.drop offset).take to_read
        Except.ok ⟨offset, data, decide (file_len ≤ offset + data.length)⟩

/-- `write_file` from `src/core/src/app.rs`.  The target is `none` when the
file does not yet exist (`OpenOptions::create(true)` then opens an empty
file).  Returns the handler's result together with the file content after
the call; `set_len` zero-fills, `write_all` splices `data` at `offset`. -/
def write_file (file : Option (List Nat)) (offset : Nat) (data : List Nat) :
    Except String FileWriteAck × List Nat :=
  let content := file.getD []
  let current_len := content.length
  match checked_add offset data.length with
  | none => (Except.error "length overflow", content)
  | some required_len =>
    let extended :=
      if current_len < required_len then
        content ++ List.replicate (required_len - current_len) 0
      else content
    let written :=
      extended.take offset ++ data ++ extended.drop (offset + data.length)
    (Except.ok ⟨data.length⟩, written)

/-- `read_file_chunk` from `src/core/src/p2p.rs` (legacy file-meta
protocol): the read buffer is capped at `min(length ?? MAX_FILE_CHUNK,
MAX_FILE_CHUNK)` bytes; `eof` compares the stream position after the read
with the file length. -/
def read_file_chunk (file : Option (Bool × List Nat)) (offset : Nat)
    (length : Option Nat) : Except String FileChunk :=
  match file with
  | none => Except.error "open failed"
  | some (is_dir, content) =>
    if is_dir then Except.error "Cannot read directory"
    else
      let max_len := min (length.getD MAX_FILE_CHUNK) MAX_FILE_CHUNK
      let data := (content.drop offset).take max_len
      let pos := offset + data.length
      Except.ok ⟨offset, data, decide (content.length ≤ pos)⟩

/-! Identity store (`load_or_generate_keypair` from `src/core/src/p2p.rs`)
over a small explicit filesystem: a set of existing directories and a map
from paths to file contents. -/

/-- A filesystem for the identity store: the directories that exist and the
files with their contents.  Paths are lists of components. -/
structure Fs where
  dirs : List (List String)
  files : List (List String × List Nat)
deriving DecidableEq

/-- `Path::exists` on the model filesystem. -/
def Fs.fileExists (fs : Fs) (p : List String) : Bool :=
  fs.files.any (fun f => f.1 == p)

/-- `fs::read` on the model filesystem. -/
def Fs.readBytes (fs : Fs) (p : List String) : Option (List Nat) :=
  (fs.files.find? (fun f => f.1 == p)).map (fun f => f.2)

/-- `fs::write` on the model filesystem: succeeds only when the parent
directory exists (otherwise `std::fs::write` fails with `NotFound`); it
creates or truncates the file and never creates directories. -/
def Fs.writeBytes (fs : Fs) (p : List String) (bytes : List Nat) :
    Option Fs :=
  if fs.dirs.contains p.dropLast then
    some { fs with files :=
      (p, bytes) :: fs.files.filter (fun f => !(f.1 == p)) }
  else none

/-- Modelled codec for the libp2p keypair (external crate): an injective
protobuf-style encoding of the keypair (itself modelled as a `Nat`) with a
decoder that accepts exactly the encodings. -/
def protobuf_encoding (k : Nat) : List Nat := [8, k]

/-- Decoder for `protobuf_encoding`; any other byte string is rejected,
modelling `Keypair::from_protobuf_encoding` failure. -/
def from_protobuf_encoding (bytes : List Nat) : Option Nat :=
  match bytes with
  | [8, k] => some k
  | _ => none

/-- `load_or_generate_keypair` from `src/core/src/p2p.rs`: if the file
exists, read and decode it; otherwise generate a key (the generated key is
passed in as `gen`), write its encoding to `path`, and return it.  The
resulting filesystem is returned alongside the result. -/
def load_or_generate_keypair (fs : Fs) (path : List String) (gen : Nat) :
    Except String Nat × Fs :=
  if fs.fileExists path then
    match fs.readBytes path with
    | some bytes =>
      match from_protobuf_encoding bytes with
      | some k => (Except.ok k, fs)
      | none => (Except.error "keypair decode failed", fs)
    | none => (Except.error "read failed", fs)
  else
    match fs.writeBytes path (protobuf_encoding gen) with
    | some fs2 => (Except.ok gen, fs2)
    | none => (Except.error "write failed: parent directory missing", fs)

/-! Directory entries and the listing sort order
(`App::collect_dir_entries` in `src/core/src/app.rs`). -/

/-- `DirEntry` as produced by the handlers (`src/core/src/app.rs`): name
(as a list of characters), directory flag, optional extension and MIME
type, size, optional timestamps. -/
structure DirEntry where
  name : List Char
  is_dir : Bool
  extension : Option (List Char)
  mime : Option (List Char)
  size : Nat
  created_at : Option Int
  modified_at : Option Int
  accessed_at : Option Int
deriving DecidableEq

/-- Comparison of two characters by code point, as Rust's `Ord for char`. -/
def charCmp (a b : Char) : Ordering :=
  if a.toNat < b.toNat then Ordering.lt
  else if b.toNat < a.toNat then Ordering.gt
  else Ordering.eq

/-- Lexicographic comparison of character lists, as Rust's `Ord` on
strings (UTF-8 byte order coincides with code-point order). -/
def charListCmp : List Char → List Char → Ordering
  | [], [] => Ordering.eq
  | [], _ :: _ => Ordering.lt
  | _ :: _, [] => Ordering.gt
  | a :: as, b :: bs =>
    match charCmp a b with
    | Ordering.eq => charListCmp as bs
    | o => o

/-- `str::to_lowercase`, modelled character-wise by `Char.toLower`. -/
def to_lowercase (s : List Char) : List Char := s.map Char.toLower

/-- The comparator of `App::collect_dir_entries` (`src/core/src/app.rs`):
directories sort before files; within a class, by lowercased name. -/
def entriesCmp (a b : DirEntry) : Ordering :=
  match a.is_dir, b.is_dir with
  | true, false => Ordering.lt
  | false, true => Ordering.gt
  | _, _ => charListCmp (to_lowercase a.name) (to_lowercase b.name)

/-- The non-strict order induced by the comparator: `a` may precede `b`. -/
def entryLe (a b : DirEntry) : Prop := entriesCmp a b ≠ Ordering.gt

instance : DecidableRel entryLe := fun a b =>
  inferInstanceAs (Decidable (entriesCmp a b ≠ Ordering.gt))

theorem charCmp_eq_lt {a b : Char} :
    charCmp a b = Ordering.lt ↔ a.toNat < b.toNat := by
  unfold charCmp
  split_ifs with h1 h2 <;> simp_all

theorem charCmp_eq_gt {a b : Char} :
    charCmp a b = Ordering.gt ↔ b.toNat < a.toNat := by
  unfold charCmp
  split_ifs with h1 h2 <;> simp_all
  omega

theorem charCmp_eq_eq {a b : Char} :
    charCmp a b = Ordering.eq ↔ a.toNat = b.toNat := by
  unfold charCmp
  split_ifs with h1 h2 <;> simp_all <;> omega

theorem charListCmp_le_total : ∀ x y : List Char,
    charListCmp x y ≠ Ordering.gt ∨ charListCmp y x ≠ Ordering.gt
  | [], [] => by simp [charListCmp]
  | [], _ :: _ => by simp [charListCmp]
  | _ :: _, [] => by simp [charListCmp]
  | a :: as, b :: bs => by
    rcases hab : charCmp a b with _ | _ | _
    · exact Or.inl (by simp [charListCmp, hab])
    · have hba : charCmp b a = Ordering.eq := by
        rw [charCmp_eq_eq] at hab ⊢
        omega
      rcases charListCmp_le_total as bs with h | h
      · exact Or.inl (by simp [charListCmp, hab, h])
      · exact Or.inr (by simp [charListCmp, hba, h])
    · have hba : charCmp b a = Ordering.lt := by
        rw [charCmp_eq_gt] at hab
        rw [charCmp_eq_lt]
        omega
      exact Or.inr (by simp [charListCmp, hba])

theorem charListCmp_le_trans : ∀ x y z : List Char,
    charListCmp x y ≠ Ordering.gt → charListCmp y z ≠ Ordering.gt →
    charListCmp x z ≠ Ordering.gt
  | [], _, z, _, _ => by cases z <;> simp [charListCmp]
  | _ :: _, [], _, h1, _ => by simp [charListCmp] at h1
  | _ :: _, _ :: _, [], _, h2 => by simp [charListCmp] at h2
  | a :: as, b :: bs, c :: cs, h1, h2 => by
    rcases hab : charCmp a b with _ | _ | _ <;>
      rcases hbc : charCmp b c with _ | _ | _ <;>
      simp only [charListCmp, hab, hbc] at h1 h2 ⊢
    · have hac : charCmp a c = Ordering.lt := by
        rw [charCmp_eq_lt] at hab hbc ⊢
        omega
      simp [hac]
    · have hac : charCmp a c = Ordering.lt := by
        rw [charCmp_eq_lt] at hab
        rw [charCmp_eq_eq] at hbc
        rw [charCmp_eq_lt]
        omega
      simp [hac]
    · exact absurd h2 (by simp)
    · have hac : charCmp a c = Ordering.lt := by
        rw [charCmp_eq_eq] at hab
        rw [charCmp_eq_lt] at hbc ⊢
        omega
      simp [hac]
    · have hac : charCmp a c = Ordering.eq := by
        rw [charCmp_eq_eq] at hab hbc ⊢
        omega
      simp only [hac]
      exact charListCmp_le_trans as bs cs h1 h2
    · exact absurd h2 (by simp)
    · exact absurd h1 (by simp)
    · exact absurd h1 (by simp)
    · exact absurd h1 (by simp)

instance : IsTotal DirEntry entryLe := by
  constructor
  intro a b
  unfold entryLe entriesCmp
  cases ha : a.is_dir <;> cases hb : b.is_dir <;> simp only
  · exact charListCmp_le_total _ _
  · right
    simp
  · left
    simp
  · exact charListCmp_le_total _ _

instance : IsTrans DirEntry entryLe := by
  constructor
  intro a b c h1 h2
  unfold entryLe entriesCmp at h1 h2 ⊢
  cases ha : a.is_dir <;> cases hb : b.is_dir <;> cases hc : c.is_dir <;>
    simp only [ha, hb, hc] at h1 h2 ⊢
  · exact charListCmp_le_trans _ _ _ h1 h2
  · exact absurd rfl h2
  · exact absurd rfl h1
  · exact absurd rfl h1
  · simp
  · exact absurd rfl h2
  · simp
  · exact charListCmp_le_trans _ _ _ h1 h2

/-- `entries.sort_by(comparator)` from `App::collect_dir_entries`: a stable
sort by the comparator, modelled by insertion sort over `entryLe` (a stable
sort with respect to a total preorder has a unique result, so this agrees
with Rust's stable `sort_by`). -/
def sortEntries (l : List DirEntry) : List DirEntry :=
  List.insertionSort entryLe l

/-! Inbound request handlers (`App::handle_puppy_peer_req` in
`src/core/src/app.rs`), over an explicit filesystem oracle. -/

/-- The filesystem consulted by the handlers.  `canonicalize` is
`tokio::fs::canonicalize` (resolving `..`, symlinks and relative forms;
`none` on failure); `metadata_ok` is the `fs::metadata` existence probe of
the `WriteFile` branch; `dir_entries` lists a directory as
`collect_dir_entries` reads it, after skipping entries whose metadata read
failed and before sorting; `stat_entry` is the `DirEntry` built by the
`StatFile` branch; `file_at` is `File::open` (`none` on failure, otherwise
the `is_dir` flag and content); `write_target` is the existing content of
the file opened for writing (`none` when it does not exist yet). -/
structure FsOracle where
  canonicalize : List String → Option (List String)
  metadata_ok : List String → Bool
  dir_entries : List String → Option (List DirEntry)
  stat_entry : List String → Option DirEntry
  file_at : List String → Option (Bool × List Nat)
  write_target : List String → Option (List Nat)

/-- `Path::parent` on a component list: `none` for an empty path. -/
def pathParent (p : List String) : Option (List String) :=
  match p with
  | [] => none
  | _ :: _ => some p.dropLast

/-- `Path::file_name` on a component list: the last component. -/
def pathFileName (p : List String) : Option String :=
  p.getLast?

/-- The four file-operation variants of `enum PeerReq` served by
`App::handle_puppy_peer_req` in `src/core/src/app.rs` (the remaining
variants carry no path and are independent of the claims settled here). -/
inductive PeerReq where
  | ListDir : List String → PeerReq
  | StatFile : List String → PeerReq
  | ReadFile : List String → Nat → Option Nat → PeerReq
  | WriteFile : List String → Nat → List Nat → PeerReq
deriving DecidableEq

/-- The `PeerRes` variants produced by the four file-operation handlers. -/
inductive PeerRes where
  | DirEntries : List DirEntry → PeerRes
  | FileStat : DirEntry → PeerRes
  | FileChunk : FileChunk → PeerRes
  | WriteAck : FileWriteAck → PeerRes
  | Error : String → PeerRes
deriving DecidableEq

/-- `App::collect_dir_entries` from `src/core/src/app.rs`: read the raw
entries (metadata failures already skipped by the oracle) and sort them. -/
def collect_dir_entries (fs : FsOracle) (path : List String) :
    Except String (List DirEntry) :=
  match fs.dir_entries path with
  | none => Except.error "read_dir failed"
  | some entries => Except.ok (sortEntries entries)

/-- `App::handle_puppy_peer_req` from `src/core/src/app.rs`, restricted to
the four file-operation variants.  `Except.error` is the `anyhow::Result`
error path (turned into `Error("Internal error")` by the dispatcher);
`Except.ok (PeerRes.Error _)` are the handler's own error replies. -/
def handle_puppy_peer_req (fs : FsOracle) (st : State) (peer : Nat)
    (req : PeerReq) : Except String PeerRes :=
  match req with
  | PeerReq.ListDir path =>
    match fs.canonicalize path with
    | none => Except.ok (PeerRes.Error "Failed to access directory")
    | some canonical =>
      if !(st.has_fs_access peer canonical (FLAG_READ ||| FLAG_SEARCH)) then
        Except.ok (PeerRes.Error "Access denied")
      else
        match collect_dir_entries fs canonical with
        | Except.error e => Except.error e
        | Except.ok entries => Except.ok (PeerRes.DirEntries entries)
  | PeerReq.StatFile path =>
    match fs.canonicalize path with
    | none => Except.ok (PeerRes.Error "Failed to access file")
    | some canonical =>
      if !(st.has_fs_access peer canonical (FLAG_READ ||| FLAG_SEARCH)) then
        Except.ok (PeerRes.Error "Access denied")
      else
        match fs.stat_entry canonical with
        | none => Except.error "metadata failed"
        | some entry => Except.ok (PeerRes.FileStat entry)
  | PeerReq.ReadFile path offset length =>
    match fs.canonicalize path with
    | none => Except.ok (PeerRes.Error "Failed to access file")
    | some canonical =>
      if !(st.has_fs_access peer canonical (FLAG_READ ||| FLAG_SEARCH)) then
        Except.ok (PeerRes.Error "Access denied")
      else
        match read_file (fs.file_at canonical) offset length with
        | Except.error e => Except.error e
        | Except.ok chunk => Except.ok (PeerRes.FileChunk chunk)
  | PeerReq.WriteFile path offset data =>
    let afterCanon := fun (canonical : List String) =>
      if !(st.has_fs_access peer canonical
          (FLAG_WRITE ||| FLAG_READ ||| FLAG_SEARCH)) then
        Except.ok (PeerRes.Error "Access denied")
      else
        match write_file (fs.write_target canonical) offset data with
        | (Except.error e, _) => Except.error e
        | (Except.ok ack, _) => Except.ok (PeerRes.WriteAck ack)
    if fs.metadata_ok path then
      match fs.canonicalize path with
      | none => Except.ok (PeerRes.Error "Failed to access file")
      | some canonical => afterCanon canonical
    else
      match pathParent path with
      | none => Except.ok (PeerRes.Error "Invalid path")
      | some parent =>
        match fs.canonicalize parent with
        | none => Except.ok (PeerRes.Error "Failed to access parent directory")
        | some canonical_parent =>
          match pathFileName path with
          | some name => afterCanon (canonical_parent ++ [name])
          | none => Except.ok (PeerRes.Error "Invalid file name")

/-! A specification-side decomposition of the same handlers, following the
spec's words: first canonicalise the supplied path (for `WriteFile` on a
nonexistent file, canonicalise the parent and append the final component),
then make the access decision on the canonical form, then perform the
operation on the canonical form. -/

/-- Modelled from the spec: the canonical target of a request — the
supplied path canonicalised, or for `WriteFile` on a nonexistent file the
canonicalised parent with the final component appended.  `Except.error`
carries the reply sent when resolution fails. -/
def spec_canonical_target (fs : FsOracle) (req : PeerReq) :
    Except String (List String) :=
  match req with
  | PeerReq.ListDir path =>
    match fs.canonicalize path with
    | none => Except.error "Failed to access directory"
    | some c => Except.ok c
  | PeerReq.StatFile path =>
    match fs.canonicalize path with
    | none => Except.error "Failed to access file"
    | some c => Except.ok c
  | PeerReq.ReadFile path _ _ =>
    match fs.canonicalize path with
    | none => Except.error "Failed to access file"
    | some c => Except.ok c
  | PeerReq.WriteFile path _ _ =>
    if fs.metadata_ok path then
      match fs.canonicalize path with
      | none => Except.error "Failed to access file"
      | some c => Except.ok c
    else
      match pathParent path with
      | none => Except.error "Invalid path"
      | some parent =>
        match fs.canonicalize parent with
        | none => Except.error "Failed to access parent directory"
        | some canonical_parent =>
          match pathFileName path with
          | some name => Except.ok (canonical_parent ++ [name])
          | none => Except.error "Invalid file name"

/-- Modelled from the spec: the access flags each request requires
(`ListDir`, `StatFile`, `ReadFile`: READ|SEARCH; `WriteFile`:
READ|WRITE|SEARCH). -/
def required_flags (req : PeerReq) : Nat :=
  match req with
  | PeerReq.ListDir _ => FLAG_READ ||| FLAG_SEARCH
  | PeerReq.StatFile _ => FLAG_READ ||| FLAG_SEARCH
  | PeerReq.ReadFile _ _ _ => FLAG_READ ||| FLAG_SEARCH
  | PeerReq.WriteFile _ _ _ => FLAG_WRITE ||| FLAG_READ ||| FLAG_SEARCH

/-- Modelled from the spec: the operation a request performs once access
has been granted, applied to the canonical target only. -/
def granted_operation (fs : FsOracle) (c : List String) (req : PeerReq) :
    Except String PeerRes :=
  match req with
  | PeerReq.ListDir _ =>
    match collect_dir_entries fs c with
    | Except.error e => Except.error e
    | Except.ok entries => Except.ok (PeerRes.DirEntries entries)
  | PeerReq.StatFile _ =>
    match fs.stat_entry c with
    | none => Except.error "metadata failed"
    | some entry => Except.ok (PeerRes.FileStat entry)
  | PeerReq.ReadFile _ offset length =>
    match read_file (fs.file_at c) offset length with
    | Except.error e => Except.error e
    | Except.ok chunk => Except.ok (PeerRes.FileChunk chunk)
  | PeerReq.WriteFile _ offset data =>
    match write_file (fs.write_target c) offset data with
    | (Except.error e, _) => Except.error e
    | (Except.ok ack, _) => Except.ok (PeerRes.WriteAck ack)

/-- Modelled from the spec: canonicalise first, decide access on the
canonical form, then operate on the canonical form. -/
def spec_acl_gate (fs : FsOracle) (st : State) (peer : Nat) (req : PeerReq) :
    Except String PeerRes :=
  match spec_canonical_target fs req with
  | Except.error msg => Except.ok (PeerRes.Error msg)
  | Except.ok c =>
    if st.has_fs_access peer c (required_flags req) then
      granted_operation fs c req
    else Except.ok (PeerRes.Error "Access denied")

/-! Theorems settling the claims. -/

/-- A state whose owner is peer `1` and which contains no shared-folder
rule and no relationship. -/
def stateNoRules : State := ⟨1, [], [], [], [], [], [], []⟩

/-- C1 (counterexample): `has_fs_access(me, path, flags)` returns true on a
state with no shared-folder rule and no relationship at all, so no granting
rule exists whose canonical path is a prefix of `path`. -/
theorem C1_self_access_counterexample :
    stateNoRules.has_fs_access 1 ["etc"] 1 = true ∧
    stateNoRules.shared_folders = [] ∧ stateNoRules.relationships = [] :=
  ⟨by decide, rfl, rfl⟩

/-- C1 (amended): whenever `has_fs_access(src, path, flags)` returns true
and `src` is not the node itself, either some relationship mentioning `src`
holds an `Owner` rule, or some granting folder rule (shared folder, or
folder rule of a relationship mentioning `src`) has its path as a
component-wise prefix of `path` and allows every requested flag. -/
theorem bool_ite_elim {c : Prop} [Decidable c]
    (h : (if c then true else false) = true) : c := by
  by_contra hc
  rw [if_neg hc] at h
  simp at h

theorem C1_access_requires_rule_amended (st : State) (src : Nat)
    (path : List String) (access : Nat)
    (h : st.has_fs_access src path access = true) (hme : src ≠ st.me) :
    (∃ rel ∈ st.relationships, (rel.src = src ∨ rel.target = src) ∧
      ∃ rr ∈ rel.rules, rr.rule = Rule.Owner) ∨
    (∃ fr : FolderRule,
      (fr ∈ st.shared_folders ∨
        ∃ rel ∈ st.relationships, (rel.src = src ∨ rel.target = src) ∧
          ∃ rr ∈ rel.rules, rr.rule = Rule.Folder fr) ∧
      fr.path.isPrefixOf path = true ∧ fr.allows access = true) := by
  have hbe : (src == st.me) = false := by
    simp [hme]
  by_cases h1 : st.shared_folders.any
      (fun r => r.path.isPrefixOf path && r.allows access) = true
  · obtain ⟨fr, hmem, hfr⟩ := List.any_eq_true.mp h1
    simp only [Bool.and_eq_true] at hfr
    exact Or.inr ⟨fr, Or.inl hmem, hfr.1, hfr.2⟩
  · have h2 : st.relationships.any (fun rel : Relationship =>
        (rel.src == src || rel.target == src) &&
        rel.rules.any (fun rr : RelationshipRule =>
          match rr.rule with
          | Rule.Owner => true
          | Rule.Folder fr =>
            fr.path.isPrefixOf path && fr.allows access)) = true := by
      unfold State.has_fs_access at h
      rw [hbe] at h
      simp only [Bool.false_eq_true, if_false] at h
      rw [if_neg h1] at h
      exact bool_ite_elim h
    obtain ⟨rel, hrelmem, hrel⟩ := List.any_eq_true.mp h2
    simp only [Bool.and_eq_true, Bool.or_eq_true, beq_iff_eq] at hrel
    obtain ⟨hmention2, hrules⟩ := hrel
    obtain ⟨rr, hrrmem, hrr⟩ := List.any_eq_true.mp hrules
    rcases hr : rr.rule with _ | fr
    · exact Or.inl ⟨rel, hrelmem, hmention2, rr, hrrmem, hr⟩
    · rw [hr] at hrr
      simp only [Bool.and_eq_true] at hrr
      exact Or.inr ⟨fr, Or.inr ⟨rel, hrelmem, hmention2, rr, hrrmem, hr⟩,
        hrr.1, hrr.2⟩

/-- C1 (witness): the amended theorem applied to a state sharing `/tmp`
with READ|SEARCH, peer `2`, path `/tmp/file`, flags READ|SEARCH. -/
theorem C1_access_requires_rule_witness :
    (∃ rel ∈ (⟨1, [], [], [], [], [], [],
        [⟨["tmp"], 9⟩]⟩ : State).relationships,
      (rel.src = 2 ∨ rel.target = 2) ∧
      ∃ rr ∈ rel.rules, rr.rule = Rule.Owner) ∨
    (∃ fr : FolderRule,
      (fr ∈ (⟨1, [], [], [], [], [], [],
          [⟨["tmp"], 9⟩]⟩ : State).shared_folders ∨
        ∃ rel ∈ (⟨1, [], [], [], [], [], [],
            [⟨["tmp"], 9⟩]⟩ : State).relationships,
          (rel.src = 2 ∨ rel.target = 2) ∧
          ∃ rr ∈ rel.rules, rr.rule = Rule.Folder fr) ∧
      fr.path.isPrefixOf ["tmp", "file"] = true ∧ fr.allows 9 = true) :=
  C1_access_requires_rule_amended ⟨1, [], [], [], [], [], [], [⟨["tmp"], 9⟩]⟩
    2 ["tmp", "file"] 9 (by decide) (by decide)

/-- Rewrite every relationship rule's expiry timestamp through `f`. -/
def set_expiry (f : Option Int → Option Int) (st : State) : State :=
  { st with relationships := st.relationships.map (fun rel =>
      ⟨rel.src, rel.target, rel.rules.map (fun rr =>
        ⟨rr.rule, f rr.expires_at⟩)⟩) }

/-- A state owned by peer `1` whose only access grant is a relationship
rule for peer `2` on folder `/tmp` with all flags, carrying
`expires_at = Some(0)` (an instant in the past). -/
def stateExpiredRule : State :=
  ⟨1, [⟨2, 1, [⟨Rule.Folder ⟨["tmp"], 15⟩, some 0⟩]⟩], [], [], [], [], [], []⟩

/-- C2 (counterexample): a relationship rule whose `expires_at` is
`Some(0)` — in the past at any positive current time — still causes
`has_fs_access` to return true. -/
theorem C2_expired_rule_counterexample :
    stateExpiredRule.has_fs_access 2 ["tmp", "x"] 1 = true ∧
    ∀ rel ∈ stateExpiredRule.relationships, ∀ rr ∈ rel.rules,
      rr.expires_at = some 0 := by
  constructor
  · decide
  · decide

/-- C2 (amended): `has_fs_access` never consults `expires_at` — its result
is invariant under an arbitrary rewrite of every relationship rule's
expiry, so expired rules are not skipped. -/
theorem C2_expiry_ignored_amended (f : Option Int → Option Int) (st : State)
    (src : Nat) (path : List String) (access : Nat) :
    (set_expiry f st).has_fs_access src path access =
      st.has_fs_access src path access := by
  unfold State.has_fs_access set_expiry
  simp [List.any_map, Function.comp]

/-- C3: each of the four inbound file-operation handlers equals the
specification-side decomposition that canonicalises the supplied path
first (for `WriteFile` on a nonexistent file: canonical parent plus final
component) and makes the access decision on that canonical form only. -/
theorem C3_canonicalise_before_acl (fs : FsOracle) (st : State) (peer : Nat)
    (req : PeerReq) :
    handle_puppy_peer_req fs st peer req = spec_acl_gate fs st peer req := by
  cases req with
  | ListDir path =>
    simp only [handle_puppy_peer_req, spec_acl_gate, spec_canonical_target,
      required_flags, granted_operation]
    cases hc : fs.canonicalize path with
    | none => simp [*]
    | some c =>
      cases hacc : st.has_fs_access peer c (FLAG_READ ||| FLAG_SEARCH) <;> simp [*]
  | StatFile path =>
    simp only [handle_puppy_peer_req, spec_acl_gate, spec_canonical_target,
      required_flags, granted_operation]
    cases hc : fs.canonicalize path with
    | none => simp [*]
    | some c =>
      cases hacc : st.has_fs_access peer c (FLAG_READ ||| FLAG_SEARCH) <;> simp [*]
  | ReadFile path offset length =>
    simp only [handle_puppy_peer_req, spec_acl_gate, spec_canonical_target,
      required_flags, granted_operation]
    cases hc : fs.canonicalize path with
    | none => simp [*]
    | some c =>
      cases hacc : st.has_fs_access peer c (FLAG_READ ||| FLAG_SEARCH) <;> simp [*]
  | WriteFile path offset data =>
    simp only [handle_puppy_peer_req, spec_acl_gate, spec_canonical_target,
      required_flags, granted_operation]
    cases hmeta : fs.metadata_ok path with
    | true =>
      cases hc : fs.canonicalize path with
      | none => simp [*]
      | some c =>
        cases hacc : st.has_fs_access peer c
            (FLAG_WRITE ||| FLAG_READ ||| FLAG_SEARCH) <;> simp [*]
    | false =>
      cases hp : pathParent path with
      | none => simp [*]
      | some parent =>
        cases hcp : fs.canonicalize parent with
        | none => simp [*]
        | some canonical_parent =>
          cases hn : pathFileName path with
          | none => simp [*]
          | some name =>
            cases hacc : st.has_fs_access peer (canonical_parent ++ [name])
                (FLAG_WRITE ||| FLAG_READ ||| FLAG_SEARCH) <;> simp [*]

/-- C4 (counterexample): `read_file` — the function serving inbound
`ReadFile` requests in `src/core/src/app.rs` — with `length = None` on a
file of 4 MiB + 1 bytes returns all 4 MiB + 1 bytes (more than
`MAX_FILE_CHUNK`) and `eof = true`, not at most 4 MiB with `eof = false`. -/
theorem read_file_none_reads_all (content : List Nat)
    (h : 0 < content.length) :
    read_file (some (false, content)) 0 none = Except.ok ⟨0, content, true⟩ := by
  rw [read_file]
  simp only [Bool.false_eq_true, if_false]
  rw [if_neg (by omega)]
  simp only [Nat.sub_zero, List.drop_zero, List.take_length, Nat.zero_add]
  simp

theorem C4_no_cap_counterexample :
    read_file (some (false, List.replicate (MAX_FILE_CHUNK + 1) 0)) 0 none =
      Except.ok ⟨0, List.replicate (MAX_FILE_CHUNK + 1) 0, true⟩ ∧
    MAX_FILE_CHUNK < (List.replicate (MAX_FILE_CHUNK + 1) (0 : Nat)).length := by
  constructor
  · exact read_file_none_reads_all _ (by rw [List.length_replicate]; omega)
  · rw [List.length_replicate]
    omega

/-- C4 (amended): `read_file` returns at most the requested length (when
one is given) and at most the remaining bytes of the file, but has no
4 MiB cap; the 4 MiB cap holds only for the legacy `read_file_chunk` in
`src/core/src/p2p.rs`, whose chunk is at most `MAX_FILE_CHUNK` bytes and
at most the requested length. -/
theorem C4_chunk_bounds_amended (content : List Nat) (offset : Nat)
    (length : Option Nat) (c c2 : FileChunk)
    (h : read_file (some (false, content)) offset length = Except.ok c)
    (h2 : read_file_chunk (some (false, content)) offset length =
      Except.ok c2) :
    (∀ l, length = some l → c.data.length ≤ l) ∧
    c.data.length ≤ content.length - offset ∧
    c2.data.length ≤ MAX_FILE_CHUNK ∧
    (∀ l, length = some l → c2.data.length ≤ l) := by
  refine ⟨?_, ?_, ?_, ?_⟩
  · intro l hl
    subst hl
    unfold read_file at h
    simp only [Bool.false_eq_true, if_false] at h
    by_cases hoff : content.length ≤ offset
    · rw [if_pos hoff] at h
      cases h
      simp
    · rw [if_neg hoff] at h
      cases h
      simp only [List.length_take, List.length_drop]
      omega
  · unfold read_file at h
    simp only [Bool.false_eq_true, if_false] at h
    by_cases hoff : content.length ≤ offset
    · rw [if_pos hoff] at h
      cases h
      simp
    · rw [if_neg hoff] at h
      cases h
      rcases length with _ | l <;>
        · simp only [List.length_take, List.length_drop]
          omega
  · unfold read_file_chunk at h2
    simp only [Bool.false_eq_true, if_false] at h2
    cases h2
    simp only [List.length_take, List.length_drop]
    omega
  · intro l hl
    subst hl
    unfold read_file_chunk at h2
    simp only [Bool.false_eq_true, if_false] at h2
    cases h2
    simp only [List.length_take, List.length_drop, Option.getD_some]
    omega

/-- C4 (witness): the amended bounds applied to a three-byte file read at
offset 1 with requested length 1 by both read functions. -/
theorem C4_chunk_bounds_witness :
    (∀ l, some 1 = some l → (FileChunk.mk 1 [2] false).data.length ≤ l) ∧
    (FileChunk.mk 1 [2] false).data.length ≤ [1, 2, 3].length - 1 ∧
    (FileChunk.mk 1 [2] false).data.length ≤ MAX_FILE_CHUNK ∧
    (∀ l, some 1 = some l → (FileChunk.mk 1 [2] false).data.length ≤ l) :=
  C4_chunk_bounds_amended [1, 2, 3] 1 (some 1)
    ⟨1, [2], false⟩ ⟨1, [2], false⟩ (by rfl) (by rfl)

/-- C5 (counterexample): announcing the same peer on a second multiaddr
does not create a second entry — `peer_discovered` dedupes on `peer_id`
alone, so the table keeps the first address only. -/
theorem C5_two_addresses_counterexample :
    ((stateNoRules.peer_discovered 3 "addr1").peer_discovered
        3 "addr2").discovered_peers = [⟨3, "addr1"⟩] := rfl

/-- C5 (amended): the discovered-peers table keeps at most one entry per
`peer_id` — an announcement for an already-known peer is ignored even on a
new multiaddr — so no two entries ever share `(peer_id, multiaddr)` (their
`peer_id`s are already distinct), and `peer_expired` removes exactly the
entries matching both `peer_id` and `multiaddr`. -/
theorem C5_discovered_peers_amended (st : State) (pid : Nat) (addr : String)
    (h : (st.discovered_peers.map DiscoveredPeer.peer_id).Nodup) :
    ((st.peer_discovered pid addr).discovered_peers.map
      DiscoveredPeer.peer_id).Nodup ∧
    (st.peer_discovered pid addr).discovered_peers.Pairwise
      (fun p q => ¬(p.peer_id = q.peer_id ∧ p.multiaddr = q.multiaddr)) ∧
    (∀ q, q ∈ (st.peer_expired pid addr).discovered_peers ↔
      q ∈ st.discovered_peers ∧ ¬(q.peer_id = pid ∧ q.multiaddr = addr)) := by
  have hnd : ((st.peer_discovered pid addr).discovered_peers.map
      DiscoveredPeer.peer_id).Nodup := by
    unfold State.peer_discovered
    by_cases hx : st.discovered_peers.any (fun p => p.peer_id == pid) = true
    · rw [if_pos hx]
      exact h
    · rw [if_neg hx]
      simp only [List.map_append, List.map_cons, List.map_nil]
      rw [List.nodup_append]
      refine ⟨h, List.nodup_singleton _, ?_⟩
      intro a ha hb
      simp only [List.mem_singleton] at hb
      subst hb
      obtain ⟨p, hp, hpe⟩ := List.exists_of_mem_map ha
      apply hx
      refine List.any_eq_true.mpr ⟨p, hp, ?_⟩
      simp [hpe]
  refine ⟨hnd, ?_, ?_⟩
  · have hp := (List.pairwise_map).mp hnd
    exact hp.imp (fun hne hand => hne hand.1)
  · intro q
    simp only [State.peer_expired, List.mem_filter, Bool.not_eq_eq_eq_not,
      Bool.not_true, Bool.and_eq_false_imp, beq_iff_eq]
    constructor
    · rintro ⟨hmem, hcond⟩
      refine ⟨hmem, ?_⟩
      rintro ⟨h1, h2⟩
      have := hcond h1
      simp [h2] at this
    · rintro ⟨hmem, hcond⟩
      refine ⟨hmem, ?_⟩
      intro h1
      by_contra hc
      simp only [Bool.not_eq_false, beq_iff_eq] at hc
      exact hcond ⟨h1, hc⟩

/-- A state whose discovered-peers table holds the single entry
`(3, "a")`. -/
def stateOnePeer : State := ⟨1, [], [], [], [⟨3, "a"⟩], [], [], []⟩

/-- C5 (witness): the amended theorem applied to a table holding the single
entry `(3, "a")`, with announcement and expiry for peer `3` at `"b"`. -/
theorem C5_discovered_peers_witness :
    ((stateOnePeer.peer_discovered 3 "b").discovered_peers.map
      DiscoveredPeer.peer_id).Nodup ∧
    (stateOnePeer.peer_discovered 3 "b").discovered_peers.Pairwise
      (fun p q => ¬(p.peer_id = q.peer_id ∧ p.multiaddr = q.multiaddr)) ∧
    (∀ q, q ∈ (stateOnePeer.peer_expired 3 "b").discovered_peers ↔
      q ∈ stateOnePeer.discovered_peers ∧
        ¬(q.peer_id = 3 ∧ q.multiaddr = "b")) :=
  C5_discovered_peers_amended stateOnePeer 3 "b" (by decide)

/-- C6: a successful `read_file` reply has `eof = true` exactly when
`offset + |data|` reaches the file length, and a read at `offset` equal to
the file size replies `data = []`, `eof = true`. -/
theorem C6_eof_iff_end (content : List Nat) (offset : Nat)
    (length : Option Nat) (c : FileChunk)
    (h : read_file (some (false, content)) offset length = Except.ok c) :
    (c.eof = true ↔ content.length ≤ offset + c.data.length) ∧
    read_file (some (false, content)) content.length length =
      Except.ok ⟨content.length, [], true⟩ := by
  constructor
  · rw [read_file] at h
    simp only [Bool.false_eq_true, if_false] at h
    by_cases hoff : content.length ≤ offset
    · rw [if_pos hoff] at h
      cases h
      simpa using hoff
    · rw [if_neg hoff] at h
      cases h
      simp
  · rw [read_file]
    simp only [Bool.false_eq_true, if_false]
    rw [if_pos (le_refl _)]

/-- C6 (witness): the characterisation applied to the one-byte file `[7]`
read wholly from offset 0. -/
theorem C6_eof_iff_end_witness :
    ((FileChunk.mk 0 [7] true).eof = true ↔
      [7].length ≤ 0 + (FileChunk.mk 0 [7] true).data.length) ∧
    read_file (some (false, [7])) [7].length none =
      Except.ok ⟨[7].length, [], true⟩ :=
  C6_eof_iff_end [7] 0 none ⟨0, [7], true⟩ (by rfl)

/-- C7: `write_file` rejects any request whose `offset + |data|` overflows
`u64`, returning the overflow error and leaving the file content exactly as
opened (no byte written). -/
theorem C7_write_overflow_rejected (file : Option (List Nat)) (offset : Nat)
    (data : List Nat) (_hoff : offset < U64_LIMIT)
    (_hlen : data.length < U64_LIMIT)
    (hover : U64_LIMIT ≤ offset + data.length) :
    (write_file file offset data).1 = Except.error "length overflow" ∧
    (write_file file offset data).2 = file.getD [] := by
  unfold write_file checked_add
  rw [if_neg (by omega)]
  exact ⟨rfl, rfl⟩

/-- C7 (witness): the overflow guard applied to `offset = u64::MAX` and one
byte of data on the one-byte file `[5]`. -/
theorem C7_write_overflow_rejected_witness :
    (write_file (some [5]) (U64_LIMIT - 1) [1]).1 =
      Except.error "length overflow" ∧
    (write_file (some [5]) (U64_LIMIT - 1) [1]).2 = (some [5]).getD [] :=
  C7_write_overflow_rejected (some [5]) (U64_LIMIT - 1) [1]
    (by decide) (by decide) (by decide)

/-- The listing order implies the claim's reading: directories precede
files, and names are in case-insensitive order within a class. -/
theorem entryLe_elim {a b : DirEntry} (h : entryLe a b) :
    (b.is_dir = true → a.is_dir = true) ∧
    (a.is_dir = b.is_dir →
      charListCmp (to_lowercase a.name) (to_lowercase b.name) ≠
        Ordering.gt) := by
  unfold entryLe entriesCmp at h
  cases ha : a.is_dir <;> cases hb : b.is_dir <;> rw [ha, hb] at h
  · exact ⟨fun hbd => hbd, fun _ => h⟩
  · exact absurd rfl h
  · exact ⟨fun _ => rfl, fun heq => Bool.noConfusion heq⟩
  · exact ⟨fun _ => rfl, fun _ => h⟩

/-- C8: every directory listing replied by the `ListDir` handler is sorted:
for entries `a` before `b`, if `b` is a directory then so is `a`
(directories precede files), and entries of the same class are in
case-insensitive name order. -/
theorem C8_listdir_sorted (fs : FsOracle) (st : State) (peer : Nat)
    (path : List String) (l : List DirEntry)
    (h : handle_puppy_peer_req fs st peer (PeerReq.ListDir path) =
      Except.ok (PeerRes.DirEntries l)) :
    l.Pairwise (fun a b =>
      (b.is_dir = true → a.is_dir = true) ∧
      (a.is_dir = b.is_dir →
        charListCmp (to_lowercase a.name) (to_lowercase b.name) ≠
          Ordering.gt)) := by
  simp only [handle_puppy_peer_req, collect_dir_entries] at h
  rcases hc : fs.canonicalize path with _ | c <;> rw [hc] at h
  · simp at h
  · rcases hacc : st.has_fs_access peer c (FLAG_READ ||| FLAG_SEARCH)
        with _ | _ <;> simp only [hacc, Bool.not_true, Bool.not_false,
          Bool.false_eq_true, if_false, if_true] at h
    · simp at h
    · rcases hd : fs.dir_entries c with _ | entries <;> rw [hd] at h
      · simp at h
      · simp only [Except.ok.injEq, PeerRes.DirEntries.injEq] at h
        subst h
        have hs := List.sorted_insertionSort entryLe entries
        exact hs.imp (fun hab => entryLe_elim hab)

/-- A filesystem oracle whose every directory holds a file `b` and a
directory `A` (in that unsorted order), with canonicalisation the
identity. -/
def oracleTwoEntries : FsOracle :=
  ⟨fun p => some p, fun _ => false,
   fun _ => some [⟨['b'], false, none, none, 0, none, none, none⟩,
                  ⟨['A'], true, none, none, 0, none, none, none⟩],
   fun _ => none, fun _ => none, fun _ => none⟩

/-- C8 (witness): the sortedness theorem applied to a listing of the file
`b` and the directory `A`; the handler replies them sorted as `[A, b]`. -/
theorem C8_listdir_sorted_witness :
    ([⟨['A'], true, none, none, 0, none, none, none⟩,
      ⟨['b'], false, none, none, 0, none, none, none⟩] :
        List DirEntry).Pairwise (fun a b =>
      (b.is_dir = true → a.is_dir = true) ∧
      (a.is_dir = b.is_dir →
        charListCmp (to_lowercase a.name) (to_lowercase b.name) ≠
          Ordering.gt)) :=
  C8_listdir_sorted oracleTwoEntries stateNoRules 1 ["d"]
    [⟨['A'], true, none, none, 0, none, none, none⟩,
     ⟨['b'], false, none, none, 0, none, none, none⟩] (by rfl)

/-- A filesystem with no directories and no files. -/
def fsNoParentDir : Fs := ⟨[], []⟩

/-- C9 (counterexample): with no file at the path and the parent directory
missing, `load_or_generate_keypair` fails and creates nothing — it does not
create the missing parent directory. -/
theorem C9_missing_parent_counterexample :
    load_or_generate_keypair fsNoParentDir ["home", "key.bin"] 42 =
      (Except.error "write failed: parent directory missing",
        fsNoParentDir) := rfl

/-- C9 (amended): when no file exists at `path` and the parent directory
exists, `load_or_generate_keypair` generates a keypair, writes its encoding
to `path` and returns it, creating no directory; when the parent directory
is missing it fails and leaves the filesystem unchanged (the parent is not
created). -/
theorem C9_load_or_generate_amended (fs : Fs) (path : List String)
    (gen : Nat) (hmissing : fs.fileExists path = false) :
    (fs.dirs.contains path.dropLast = true →
      (load_or_generate_keypair fs path gen).1 = Except.ok gen ∧
      ((load_or_generate_keypair fs path gen).2).readBytes path =
        some (protobuf_encoding gen) ∧
      ((load_or_generate_keypair fs path gen).2).dirs = fs.dirs) ∧
    (fs.dirs.contains path.dropLast = false →
      (load_or_generate_keypair fs path gen).1 =
        Except.error "write failed: parent directory missing" ∧
      (load_or_generate_keypair fs path gen).2 = fs) := by
  constructor
  · intro hdir
    have hdir2 : path.dropLast ∈ fs.dirs := by
      simpa using hdir
    unfold load_or_generate_keypair Fs.writeBytes Fs.readBytes
    rw [hmissing]
    simp [hdir2, List.find?]
  · intro hdir
    have hdir2 : path.dropLast ∉ fs.dirs := by
      simpa using hdir
    unfold load_or_generate_keypair Fs.writeBytes
    rw [hmissing]
    simp [hdir2]

/-- A filesystem holding the single directory `/home` and no files. -/
def fsHomeDir : Fs := ⟨[["home"]], []⟩

/-- C9 (witness): the amended behaviour on a filesystem with directory
`/home`: generating at `/home/key.bin` writes the encoding and returns the
key; the missing-parent branch is vacuous there. -/
theorem C9_load_or_generate_witness :
    (fsHomeDir.dirs.contains (["home", "key.bin"] : List String).dropLast
        = true →
      (load_or_generate_keypair fsHomeDir ["home", "key.bin"] 42).1 =
        Except.ok 42 ∧
      ((load_or_generate_keypair fsHomeDir
          ["home", "key.bin"] 42).2).readBytes ["home", "key.bin"] =
        some (protobuf_encoding 42) ∧
      ((load_or_generate_keypair fsHomeDir ["home", "key.bin"] 42).2).dirs =
        fsHomeDir.dirs) ∧
    (fsHomeDir.dirs.contains (["home", "key.bin"] : List String).dropLast
        = false →
      (load_or_generate_keypair fsHomeDir ["home", "key.bin"] 42).1 =
        Except.error "write failed: parent directory missing" ∧
      (load_or_generate_keypair fsHomeDir ["home", "key.bin"] 42).2 =
        fsHomeDir) :=
  C9_load_or_generate_amended fsHomeDir ["home", "key.bin"] 42 (by rfl)

/-- Splicing `data` into `l` at `offset` keeps the length when the spliced
range fits. -/
theorem splice_length (l data : List Nat) (offset : Nat)
    (hlen : offset + data.length ≤ l.length) :
    (l.take offset ++ data ++ l.drop (offset + data.length)).length =
      l.length := by
  simp only [List.length_append, List.length_take, List.length_drop]
  omega

/-- Splicing `data` into `l` at `offset` leaves indices outside
`[offset, offset + |data|)` unchanged. -/
theorem splice_getElem (l data : List Nat) (offset i : Nat)
    (hlen : offset + data.length ≤ l.length)
    (hi : i < offset ∨ offset + data.length ≤ i) :
    (l.take offset ++ data ++ l.drop (offset + data.length))[i]? = l[i]? := by
  rcases hi with hi | hi
  · rw [List.getElem?_append_left, List.getElem?_append_left,
      List.getElem?_take_of_lt hi]
    · rw [List.length_take]
      omega
    · simp only [List.length_append, List.length_take]
      omega
  · rw [List.getElem?_append_right, List.getElem?_drop]
    · congr 1
      simp only [List.length_append, List.length_take]
      omega
    · simp only [List.length_append, List.length_take]
      omega

/-- C10: a successful `write_file(path, offset, data)` acknowledges
`|data|` bytes, leaves the file length at
`max(previous length, offset + |data|)` (never truncating), and leaves
every previously existing byte outside `[offset, offset + |data|)`
unchanged. -/
theorem C10_write_frame (file : Option (List Nat)) (offset : Nat)
    (data : List Nat) (h : offset + data.length < U64_LIMIT) :
    (write_file file offset data).1 = Except.ok ⟨data.length⟩ ∧
    (write_file file offset data).2.length =
      max (file.getD []).length (offset + data.length) ∧
    ∀ i, (i < offset ∨ offset + data.length ≤ i) →
      i < (file.getD []).length →
      (write_file file offset data).2[i]? = (file.getD [])[i]? := by
  unfold write_file checked_add
  rw [if_pos h]
  simp only []
  set content := file.getD [] with hcontent
  by_cases hext : content.length < offset + data.length
  · rw [if_pos hext]
    set extended := content ++ List.replicate
      (offset + data.length - content.length) 0 with hextdef
    have hextlen : extended.length = offset + data.length := by
      rw [hextdef]
      simp only [List.length_append, List.length_replicate]
      omega
    refine ⟨trivial, ?_, ?_⟩
    · rw [splice_length _ _ _ (le_of_eq hextlen.symm)]
      omega
    · intro i hi hilt
      rw [splice_getElem _ _ _ _ (le_of_eq hextlen.symm) hi]
      rw [hextdef, List.getElem?_append_left hilt]
  · rw [if_neg hext]
    push_neg at hext
    refine ⟨trivial, ?_, ?_⟩
    · rw [splice_length _ _ _ hext]
      omega
    · intro i hi _
      exact splice_getElem _ _ _ _ hext hi

/-- C10 (witness): the frame property applied to writing `[9]` at offset 1
of the three-byte file `[1, 2, 3]`. -/
theorem C10_write_frame_witness :
    (write_file (some [1, 2, 3]) 1 [9]).1 =
      Except.ok ⟨([9] : List Nat).length⟩ ∧
    (write_file (some [1, 2, 3]) 1 [9]).2.length =
      max ((some [1, 2, 3]).getD []).length (1 + ([9] : List Nat).length) ∧
    ∀ i, (i < 1 ∨ 1 + ([9] : List Nat).length ≤ i) →
      i < ((some [1, 2, 3]).getD []).length →
      (write_file (some [1, 2, 3]) 1 [9]).2[i]? =
        ((some [1, 2, 3]).getD [])[i]? :=
  C10_write_frame (some [1, 2, 3]) 1 [9] (by decide)

end PuppyPeer
